import Mathlib

/-!
# megumi-bot: the update poller and the command dispatcher

A shallow embedding of `main.go`.  Go strings are byte sequences, Go maps are
association lists, the process-wide variables `configuration` and `services`
are threaded through every function as an explicit `AppState`, and every call
that leaves the process (an HTTP request to Telegram, a script run, the rewrite
of the configuration file) is recorded, in program order, as an `Effect`.  A
request is recorded only when the HTTP client accepts the URL the bot has
built; what the network and the server make of it lies outside.  Console
logging (`fmt.Println`) is not recorded.  A Go run-time panic (index or slice
out of range) is the result `none`.
-/

set_option autoImplicit false

namespace MegumiBot

/-! ## Go strings and the `strings` / `unicode/utf8` functions used by the bot -/

/-- A Go `string`: an immutable sequence of bytes. -/
abbrev GoString := List UInt8

/-- The rune `utf8.RuneError` (U+FFFD). -/
def runeError : Int := 0xFFFD

/-- The bytes `utf8.AppendRune` appends for the rune `r`. -/
def appendRune (r : Int) : GoString :=
  let n := r.toNat
  if 0 ≤ r ∧ r ≤ 0x7F then [n.toUInt8]
  else if 0 ≤ r ∧ r ≤ 0x7FF then [(0xC0 + n / 64).toUInt8, (0x80 + n % 64).toUInt8]
  else if r < 0 ∨ 0x10FFFF < r ∨ (0xD800 ≤ r ∧ r ≤ 0xDFFF) then [0xEF, 0xBF, 0xBD]
  else if r ≤ 0xFFFF then
    [(0xE0 + n / 4096).toUInt8, (0x80 + n / 64 % 64).toUInt8, (0x80 + n % 64).toUInt8]
  else
    [(0xF0 + n / 262144).toUInt8, (0x80 + n / 4096 % 64).toUInt8,
     (0x80 + n / 64 % 64).toUInt8, (0x80 + n % 64).toUInt8]

/-- The number of bytes `utf8.RuneLen` reports for `r` (`-1` is rendered as `0`). -/
def runeLen (r : Int) : Nat :=
  if r < 0 then 0
  else if r ≤ 0x7F then 1
  else if r ≤ 0x7FF then 2
  else if 0xD800 ≤ r ∧ r ≤ 0xDFFF then 0
  else if r ≤ 0xFFFF then 3
  else if r ≤ 0x10FFFF then 4
  else 0

/-- UTF-8 encoding of a list of characters. -/
def utf8 : List Char → GoString
  | [] => []
  | c :: cs => appendRune (c.toNat : Int) ++ utf8 cs

/-- A Go string literal. -/
def str (s : String) : GoString := utf8 s.data

/-- The first rune of `s` and its width in bytes, as `utf8.DecodeRuneInString`
computes them: an invalid or short encoding yields `(RuneError, 1)`, the empty
string `(RuneError, 0)`. -/
def decodeRuneInString : GoString → Int × Nat
  | [] => (runeError, 0)
  | p0 :: rest =>
    let b0 := p0.toNat
    if b0 < 0x80 then ((b0 : Int), 1)
    else if b0 < 0xC2 ∨ 0xF4 < b0 then (runeError, 1)
    else
      let sz := if b0 < 0xE0 then 2 else if b0 < 0xF0 then 3 else 4
      let lo := if b0 = 0xE0 then 0xA0 else if b0 = 0xF0 then 0x90 else 0x80
      let hi := if b0 = 0xED then 0x9F else if b0 = 0xF4 then 0x8F else 0xBF
      if rest.length + 1 < sz then (runeError, 1)
      else
        match rest with
        | [] => (runeError, 1)
        | p1 :: rest1 =>
          let b1 := p1.toNat
          if b1 < lo ∨ hi < b1 then (runeError, 1)
          else if sz ≤ 2 then (((b0 % 32 * 64 + b1 % 64 : Nat) : Int), 2)
          else
            match rest1 with
            | [] => (runeError, 1)
            | p2 :: rest2 =>
              let b2 := p2.toNat
              if b2 < 0x80 ∨ 0xBF < b2 then (runeError, 1)
              else if sz ≤ 3 then
                (((b0 % 16 * 4096 + b1 % 64 * 64 + b2 % 64 : Nat) : Int), 3)
              else
                match rest2 with
                | [] => (runeError, 1)
                | p3 :: _ =>
                  let b3 := p3.toNat
                  if b3 < 0x80 ∨ 0xBF < b3 then (runeError, 1)
                  else
                    (((b0 % 8 * 262144 + b1 % 64 * 4096 + b2 % 64 * 64 + b3 % 64 : Nat) : Int), 4)

/-- The function `unicode.ToLower`: the ASCII range is handled in the function
itself, every other rune is looked up in the Unicode case tables
(`unicode.To(LowerCase, r)`), which are the parameter `table`. -/
def unicodeToLower (table : Int → Int) (r : Int) : Int :=
  if r ≤ 0x7F then
    if 65 ≤ r ∧ r ≤ 90 then r + 32 else r
  else table r

/-- Second loop of `strings.Map`: every remaining rune is mapped and written,
a negative result is dropped.  `skip` counts the bytes of the current rune that
are still to be stepped over. -/
def mapTail (mapping : Int → Int) : Nat → GoString → GoString
  | _, [] => []
  | skip + 1, _ :: t => mapTail mapping skip t
  | 0, b :: t =>
    let d := decodeRuneInString (b :: t)
    let r := mapping d.1
    (if 0 ≤ r then appendRune r else []) ++ mapTail mapping (d.2 - 1) t

/-- First loop of `strings.Map`: the input is scanned for the first rune that
the mapping changes (or that is an invalid byte); `none` when there is no such
rune, otherwise the whole output. -/
def mapHead (mapping : Int → Int) : Nat → GoString → Option GoString
  | _, [] => none
  | skip + 1, b :: t => (mapHead mapping skip t).map (fun out => b :: out)
  | 0, b :: t =>
    let d := decodeRuneInString (b :: t)
    let c := d.1
    let r := mapping c
    if r = c ∧ (c ≠ runeError ∨ d.2 ≠ 1) then
      (mapHead mapping (d.2 - 1) t).map (fun out => b :: out)
    else
      let width := if c = runeError then d.2 else runeLen c
      some ((if 0 ≤ r then appendRune r else []) ++ mapTail mapping (width - 1) t)

/-- The function `strings.Map`. -/
def stringsMap (mapping : Int → Int) (s : GoString) : GoString :=
  match mapHead mapping 0 s with
  | none => s
  | some out => out

/-- Lower-casing of one ASCII byte. -/
def lowerByte (c : UInt8) : UInt8 :=
  if 65 ≤ c.toNat ∧ c.toNat ≤ 90 then c + 32 else c

/-- The function `strings.ToLower`: a byte loop for ASCII-only strings,
`strings.Map(unicode.ToLower, s)` otherwise. -/
def ToLower (table : Int → Int) (s : GoString) : GoString :=
  let isASCII := s.all (fun c => decide (c.toNat < 0x80))
  let hasUpper := s.any (fun c => decide (65 ≤ c.toNat ∧ c.toNat ≤ 90))
  if isASCII then
    if !hasUpper then s else s.map lowerByte
  else stringsMap (unicodeToLower table) s

/-- The function `strings.HasPrefix`: `len(s) >= len(p) && s[:len(p)] == p`. -/
def startsWith (s p : GoString) : Bool :=
  decide (p.length ≤ s.length ∧ s.take p.length = p)

/-- Left-to-right replacement of the non-overlapping occurrences of `old`;
`skip` counts the bytes of a matched occurrence still to be stepped over. -/
def replaceFrom (old new : GoString) : Nat → GoString → GoString
  | _, [] => []
  | skip + 1, _ :: t => replaceFrom old new skip t
  | 0, b :: t =>
    if startsWith (b :: t) old then new ++ replaceFrom old new (old.length - 1) t
    else b :: replaceFrom old new 0 t

/-- The function `strings.ReplaceAll` for a non-empty `old` (the bot only
replaces the two-byte placeholder). -/
def ReplaceAll (s old new : GoString) : GoString :=
  replaceFrom old new 0 s

/-- The function `strings.Join`. -/
def Join : List GoString → GoString → GoString
  | [], _ => []
  | [a], _ => a
  | a :: b :: rest, sep => a ++ sep ++ Join (b :: rest) sep

/-- Indexing `s[i]`; `none` is the out-of-range panic. -/
def byteAt (s : GoString) (i : Nat) : Option UInt8 := s.get? i

/-- Slicing `s[i:]`; `none` is the out-of-range panic. -/
def sliceFrom (s : GoString) (i : Nat) : Option GoString :=
  if i ≤ s.length then some (s.drop i) else none

/-- The digits of `n`, most significant first, in front of `acc`. -/
def decimalDigits : Nat → Nat → GoString → GoString
  | 0, _, acc => acc
  | fuel + 1, n, acc =>
    if n / 10 = 0 then (48 + n % 10).toUInt8 :: acc
    else decimalDigits fuel (n / 10) ((48 + n % 10).toUInt8 :: acc)

/-- The verb `%d` of `fmt.Sprintf` on an `int`: decimal digits, a leading minus
sign for a negative number. -/
def formatInt (i : Int) : GoString :=
  if i < 0 then 45 :: decimalDigits (i.natAbs + 1) i.natAbs []
  else decimalDigits (i.toNat + 1) i.toNat []

/-- The function `strings.Cut` for a one-byte separator: the text before the
first occurrence of `sep` and the text after it; the whole text and the empty
string when `sep` does not occur. -/
def cutAt (sep : UInt8) : GoString → GoString × GoString
  | [] => ([], [])
  | b :: t => if b = sep then ([], t) else ((b :: (cutAt sep t).1), (cutAt sep t).2)

/-- The check `stringContainsCTLByte` of `net/url`: a byte below the space or
the byte 0x7f. -/
def containsCTLByte (s : GoString) : Bool :=
  s.any (fun b => decide (b.toNat < 0x20 ∨ b.toNat = 0x7f))

/-- The check `ishex` of `net/url`. -/
def ishex (c : UInt8) : Bool :=
  decide ((48 ≤ c.toNat ∧ c.toNat ≤ 57) ∨ (97 ≤ c.toNat ∧ c.toNat ≤ 102)
    ∨ (65 ≤ c.toNat ∧ c.toNat ≤ 70))

/-- Whether `unescape` of `net/url` returns no error on a path or a fragment:
every percent sign is followed by two hexadecimal digits. -/
def validEscapes : GoString → Bool
  | [] => true
  | c :: t =>
    if c = 37 then
      match t with
      | h1 :: h2 :: t2 => ishex h1 && ishex h2 && validEscapes t2
      | _ => false
    else validEscapes t

/-- Whether `url.Parse`, which `http.Get` and `http.Post` call first, returns
no error on `rawURL`, for a `rawURL` that begins with
"https://api.telegram.org/", as every URL the bot builds does (scheme and
authority, 24 bytes, are then well-formed).  The fragment is cut off at the
first "#"; what is before it must hold no control byte; the path, which ends
at the first "?", and a non-empty fragment must have well-formed escapes. -/
def urlParses (rawURL : GoString) : Bool :=
  let c := cutAt 35 rawURL
  if containsCTLByte c.1 then false
  else if !validEscapes (cutAt 63 (c.1.drop 24)).1 then false
  else if c.2 ≠ [] ∧ validEscapes c.2 = false then false
  else true

/-! ## Go maps -/

/-- A Go `map`: the bindings, in the order in which `range` visits them. -/
abbrev GoMap (κ ν : Type) := List (κ × ν)

/-- The comma-ok lookup `v, ok := m[k]`. -/
def mapLookup {κ ν : Type} [DecidableEq κ] (m : GoMap κ ν) (k : κ) : Option ν :=
  match m with
  | [] => none
  | (k1, v) :: rest => if k1 = k then some v else mapLookup rest k

/-- The plain index expression `m[k]`: the zero value when the key is absent
(also on a nil map). -/
def mapIndex {κ ν : Type} [DecidableEq κ] [Inhabited ν] (m : GoMap κ ν) (k : κ) : ν :=
  (mapLookup m k).getD default

/-- The assignment `m[k] = v`. -/
def mapAssign {κ ν : Type} [DecidableEq κ] (m : GoMap κ ν) (k : κ) (v : ν) : GoMap κ ν :=
  match m with
  | [] => [(k, v)]
  | (k1, v1) :: rest => if k1 = k then (k, v) :: rest else (k1, v1) :: mapAssign rest k v

/-- The keys of a map, in `range` order. -/
def mapKeys {κ ν : Type} (m : GoMap κ ν) : List κ := m.map Prod.fst

/-! ## The data model (`Config`, the Telegram records) -/

/-- An allow-list entry. -/
structure User where
  Username : GoString
  Locale : GoString
  deriving DecidableEq, Inhabited

/-- A message template of the locale catalog. -/
structure Status where
  Text : GoString
  deriving DecidableEq, Inhabited

/-- A registered service: the path of the directory of its control scripts. -/
structure Service where
  Path : GoString
  deriving DecidableEq, Inhabited

/-- The persisted configuration. -/
structure Config where
  AdminId : Int
  Whitelist : GoMap Int User
  Localization : GoMap GoString (GoMap GoString Status)
  Hub : GoMap GoString Service
  deriving DecidableEq, Inhabited

/-- A Telegram chat. -/
structure Chat where
  Id : Int
  Username : Option GoString
  Firstname : Option GoString
  Lastname : Option GoString
  deriving DecidableEq, Inhabited

/-- A Telegram message. -/
structure Message where
  MessageId : Int
  Chat : Chat
  Text : GoString
  deriving DecidableEq, Inhabited

/-- A Telegram callback query (a pressed inline button). -/
structure CallbackQuery where
  Data : GoString
  Message : Message
  deriving DecidableEq, Inhabited

/-- An inbound event. -/
structure Update where
  UpdateID : Int
  Message : Message
  CallbackQuery : CallbackQuery
  deriving DecidableEq, Inhabited

/-- The package-level variables that the dispatcher reads and writes. -/
structure AppState where
  telegramBotToken : GoString
  configFilePath : GoString
  configuration : Config
  services : GoString
  deriving DecidableEq, Inhabited

/-- What leaves the process. -/
inductive Effect where
  /-- A GET request for `url`, the URL handed to `http.Get` without its
  fragment (a fragment is not part of a request). -/
  | httpGet (url : GoString)
  /-- A POST request for `url` with the given content type and body. -/
  | httpPost (url : GoString) (contentType : GoString) (body : GoString)
  /-- The invocation `exec.Command("sudo", "-u", "root", path).Run()` of the
  script executor. -/
  | runScript (path : GoString)
  /-- The call `os.WriteFile(path, ..)` with the marshalled `cfg`. -/
  | writeConfig (path : GoString) (cfg : Config)
  deriving DecidableEq

/-- What the dispatcher cannot decide by itself: the Unicode case tables behind
`strings.ToLower`, and whether the run of a script returns a nil error. -/
structure Env where
  lowerTable : Int → Int
  scriptOk : GoString → Bool

/-- Result of a dispatcher function: `none` is a run-time panic, otherwise the
state left behind and the effects in program order. -/
abbrev Outcome := Option (AppState × List Effect)

/-! ## The dispatcher -/

/-- The expression
`configuration.Localization[configuration.Whitelist[chatId].Locale][key].Text`. -/
def localized (st : AppState) (chatId : Int) (key : GoString) : GoString :=
  (mapIndex (mapIndex st.configuration.Localization
    (mapIndex st.configuration.Whitelist chatId).Locale) key).Text

/-- The constant `telegramAPIURL`. -/
def telegramAPIURL : GoString := str "https://api.telegram.org/bot"

/-- The call `http.Get(rawURL)`: a request goes out when the URL parses, the
error is returned (and only printed by the caller) otherwise. -/
def httpGet (rawURL : GoString) : List Effect :=
  if urlParses rawURL then [Effect.httpGet (cutAt 35 rawURL).1] else []

/-- The call `http.Post(rawURL, contentType, body)`. -/
def httpPost (rawURL contentType body : GoString) : List Effect :=
  if urlParses rawURL then [Effect.httpPost (cutAt 35 rawURL).1 contentType body] else []

/-- The function `sendMessage`: the placeholder is replaced by the display name
of the addressee, the text is pasted, as it is, into the URL
`<api><token>/sendMessage?chat_id=<id>&text=<text>`, and the URL is handed to
`http.Get`. -/
def sendMessage (chatID : Int) (text : GoString) (st : AppState) : Outcome :=
  let text1 := ReplaceAll text (str "%s") (mapIndex st.configuration.Whitelist chatID).Username
  let url := telegramAPIURL ++ st.telegramBotToken ++ str "/sendMessage?chat_id="
    ++ formatInt chatID ++ str "&text=" ++ text1
  some (st, httpGet url)

/-- The marshalled keyboard of `sendLanguageSelectionButtons`: one row of two
buttons. -/
def keyboardJSON : GoString :=
  str ("\x7b\"inline_keyboard\":[[\x7b\"text\":\"🇮🇹\",\"callback_data\":\"it\"\x7d,"
    ++ "\x7b\"text\":\"🇬🇧\",\"callback_data\":\"en\"\x7d]]\x7d")

/-- The function `sendLanguageSelectionButtons`: the form
`chat_id=<id>&text=<text>&reply_markup=<keyboard>` is posted to
`<api><token>/sendMessage`. -/
def sendLanguageSelectionButtons (chatID : Int) (text : GoString) (st : AppState) : Outcome :=
  let formData := str "chat_id=" ++ formatInt chatID ++ str "&text=" ++ text
    ++ str "&reply_markup=" ++ keyboardJSON
  let url := telegramAPIURL ++ st.telegramBotToken ++ str "/sendMessage"
  some (st, httpPost url (str "application/x-www-form-urlencoded") formData)

/-- The function `commandService`: runs `service.Path+scriptName`; the Boolean
tells whether the returned error is nil. -/
def commandService (env : Env) (service : Service) (scriptName : GoString) (st : AppState) :
    Bool × AppState × List Effect :=
  (env.scriptOk (service.Path ++ scriptName), st, [Effect.runScript (service.Path ++ scriptName)])

/-- The function `handleService`. -/
def handleService (env : Env) (input : GoString) (chatId : Int) (command : GoString)
    (st : AppState) : Outcome :=
  match mapLookup st.configuration.Hub input with
  | none => sendMessage chatId (localized st chatId (str "unimplemented")) st
  | some service =>
    let r := commandService env service command st
    if r.1 = false then
      (sendMessage chatId (localized r.2.1 chatId (str "failure")) r.2.1).map
        (fun o => (o.1, r.2.2 ++ o.2))
    else
      (sendMessage chatId (localized r.2.1 chatId (str "success")) r.2.1).map
        (fun o => (o.1, r.2.2 ++ o.2))

/-- The function `handleCommand`. -/
def handleCommand (env : Env) (input : GoString) (chatId : Int) (st : AppState) : Outcome :=
  if input = str "start" then
    sendLanguageSelectionButtons chatId (str "ㅤㅤ( ﾉ ﾟｰﾟ)ﾉ") st
  else if input = str "help" then
    sendMessage chatId st.services st
  else if startsWith input (str "stop") then
    if chatId = st.configuration.AdminId then
      if 6 ≤ input.length then
        match byteAt input 5 with
        | none => none
        | some b =>
          if b ≠ 32 then
            match sliceFrom input 5 with
            | none => none
            | some name => handleService env name chatId (str "stop.sh") st
          else sendMessage chatId (localized st chatId (str "malformed")) st
      else sendMessage chatId (localized st chatId (str "malformed")) st
    else sendMessage chatId (localized st chatId (str "unauthorized")) st
  else handleService env input chatId (str "start.sh") st

/-- The function `handleInput`. -/
def handleInput (env : Env) (input : GoString) (chatId : Int) (st : AppState) : Outcome :=
  if startsWith input (str "/") then
    match sliceFrom input 1 with
    | none => none
    | some rest => handleCommand env (ToLower env.lowerTable rest) chatId st
  else sendMessage chatId (localized st chatId (str "malformed")) st

/-- The function `writeToConfigFile`: the whole configuration is marshalled and
written to `configFilePath`; the caller ignores the returned error. -/
def writeToConfigFile (st : AppState) : AppState × List Effect :=
  (st, [Effect.writeConfig st.configFilePath st.configuration])

/-- The function `updateLocale`. -/
def updateLocale (locale : GoString) (chatId : Int) (st : AppState) : Outcome :=
  let st1 : AppState :=
    match mapLookup st.configuration.Whitelist chatId with
    | some userEntry =>
      { st with configuration :=
          { st.configuration with
            Whitelist := mapAssign st.configuration.Whitelist chatId
              { userEntry with Locale := locale } } }
    | none => st
  let w := writeToConfigFile st1
  (sendMessage chatId
      (mapIndex (mapIndex w.1.configuration.Localization locale) (str "welcome")).Text w.1).map
    (fun o => (o.1, w.2 ++ o.2))

/-- The function `handleCallbackQuery`. -/
def handleCallbackQuery (locale : GoString) (chatId : Int) (st : AppState) : Outcome :=
  if locale = str "it" then updateLocale (str "it") chatId st
  else updateLocale (str "en") chatId st

/-- The conversation on whose behalf `processUpdate` acts: the chat of the
message the pressed button belongs to when the update carries callback data,
the chat of the message otherwise. -/
def actingChatId (update : Update) : Int :=
  if update.CallbackQuery.Data ≠ [] then update.CallbackQuery.Message.Chat.Id
  else update.Message.Chat.Id

/-- The function `processUpdate`. -/
def processUpdate (env : Env) (update : Update) (st : AppState) : Outcome :=
  let chatId := actingChatId update
  match mapLookup st.configuration.Whitelist chatId with
  | none => some (st, [])
  | some _ =>
    if update.CallbackQuery.Data ≠ [] then
      handleCallbackQuery update.CallbackQuery.Data chatId st
    else handleInput env update.Message.Text chatId st

/-- The function `loadConfigFile`, from the unmarshalled configuration on: the
names of the registry, in `range` order, make up the help text.  `main` has
set the token and the path of the configuration file before. -/
def loadConfigFile (token path : GoString) (cfg : Config) : AppState :=
  { telegramBotToken := token
    configFilePath := path
    configuration := cfg
    services := str "/" ++ Join (mapKeys cfg.Hub) (str " /") }

/-! ## The poller -/

/-- A Go `int` (64 bits) after an arithmetic operation: two's complement
wrap-around. -/
def wrapInt (x : Int) : Int := (x + 2 ^ 63) % 2 ^ 64 - 2 ^ 63

/-- The inner loop of `main` over a fetched batch: every update is dispatched
(`go processUpdate(update)`) and the cursor is set to its id plus one. -/
def dispatchBatch (offset : Int) (updates : List Update) : Int × List Update :=
  updates.foldl (fun acc update => (wrapInt (update.UpdateID + 1), acc.2 ++ [update]))
    (offset, [])

/-- One iteration of the polling loop of `main`, from the result of
`getUpdates(offset)` on: the cursor for the next iteration and the updates
handed to `processUpdate`. -/
def pollIteration {ε : Type} (offset : Int) (fetched : Except ε (List Update)) :
    Int × List Update :=
  match fetched with
  | Except.error _ => (offset, [])
  | Except.ok updates => dispatchBatch offset updates

/-! ## Rendered replies -/

/-- The text that `sendMessage` pastes into the URL when the template `key` of
the catalog of the locale of `chatId` is sent to `chatId`: the placeholder is
replaced by the display name of `chatId`. -/
def rendered (st : AppState) (chatId : Int) (key : GoString) : GoString :=
  ReplaceAll (localized st chatId key) (str "%s") (mapIndex st.configuration.Whitelist chatId).Username

/-- The URL that `sendMessage` builds for the chat `chatId` and the final text
`text`. -/
def sendMessageURL (st : AppState) (chatId : Int) (text : GoString) : GoString :=
  telegramAPIURL ++ st.telegramBotToken ++ str "/sendMessage?chat_id=" ++ formatInt chatId
    ++ str "&text=" ++ text

/-- A text without a control byte and without "#". -/
def cleanText (t : GoString) : Bool :=
  t.all (fun b => decide (¬ (b.toNat < 0x20 ∨ b.toNat = 0x7f) ∧ b ≠ 35))

/-- A bot token without a control byte and without "#", "?" and "%". -/
def cleanToken (t : GoString) : Bool :=
  t.all (fun b => decide (¬ (b.toNat < 0x20 ∨ b.toNat = 0x7f) ∧ b ≠ 35 ∧ b ≠ 63 ∧ b ≠ 37))

/-- A byte of the ASCII range that is not an upper-case letter. -/
def plainByte (c : UInt8) : Prop := c.toNat < 0x80 ∧ ¬ (65 ≤ c.toNat ∧ c.toNat ≤ 90)

instance (c : UInt8) : Decidable (plainByte c) := by
  unfold plainByte
  exact inferInstance

/-! ## A concrete deployment, used to evaluate the dispatcher -/

/-- A configuration with the administrator 100, the operator 200, two locales
and three services. -/
def demoConfig : Config :=
  { AdminId := 100
    Whitelist := [(100, ⟨str "root", str "en"⟩), (200, ⟨str "bob", str "it"⟩)]
    Localization :=
      [(str "en",
         [(str "welcome", ⟨str "Welcome_%s"⟩), (str "success", ⟨str "done"⟩),
          (str "failure", ⟨str "failed"⟩), (str "malformed", ⟨str "what?"⟩),
          (str "unimplemented", ⟨str "unknown"⟩), (str "unauthorized", ⟨str "no,%s"⟩)]),
       (str "it",
         [(str "welcome", ⟨str "Ciao_%s"⟩), (str "success", ⟨str "fatto"⟩),
          (str "failure", ⟨str "fallito"⟩), (str "malformed", ⟨str "cosa?"⟩),
          (str "unimplemented", ⟨str "ignoto"⟩), (str "unauthorized", ⟨str "vietato,%s"⟩)])]
    Hub := [(str "web", ⟨str "/srv/web/"⟩), (str "Db", ⟨str "/srv/db/"⟩),
            (str "help", ⟨str "/srv/help/"⟩)] }

/-- The demo configuration with an empty registry. -/
def emptyHubConfig : Config := { demoConfig with Hub := [] }

/-- The demo configuration with a registry whose only name holds the
placeholder. -/
def placeholderHubConfig : Config := { demoConfig with Hub := [(str "a%sb", ⟨str "/srv/a/"⟩)] }

/-- A configuration whose templates and whose second service name hold a line
feed. -/
def multilineConfig : Config :=
  { AdminId := 100
    Whitelist := [(100, ⟨str "root", str "en"⟩), (200, ⟨str "bob", str "it"⟩)]
    Localization :=
      [(str "en",
         [(str "welcome", ⟨str "Hi\n%s"⟩), (str "success", ⟨str "done\n"⟩),
          (str "failure", ⟨str "failed\n"⟩), (str "malformed", ⟨str "what?"⟩),
          (str "unimplemented", ⟨str "unknown"⟩), (str "unauthorized", ⟨str "no\n%s"⟩)]),
       (str "it",
         [(str "welcome", ⟨str "Ciao\n%s"⟩), (str "success", ⟨str "fatto\n"⟩),
          (str "failure", ⟨str "fallito\n"⟩), (str "malformed", ⟨str "cosa?"⟩),
          (str "unimplemented", ⟨str "ignoto"⟩), (str "unauthorized", ⟨str "vietato\n%s"⟩)])]
    Hub := [(str "web", ⟨str "/srv/web/"⟩), (str "a\nb", ⟨str "/srv/ab/"⟩)] }

/-- The token of the demo deployment. -/
def demoToken : GoString := str "42:key"

/-- The state after start-up on `demoConfig`. -/
def demoState : AppState := loadConfigFile demoToken (str "/etc/bot.json") demoConfig

/-- The state after start-up on `multilineConfig`. -/
def multilineState : AppState := loadConfigFile demoToken (str "/etc/bot.json") multilineConfig

/-- The URL of the demo deployment for the chat `chatId` and the text `text`. -/
def demoURL (chatId : String) (text : String) : GoString :=
  str "https://api.telegram.org/bot42:key/sendMessage?chat_id=" ++ str chatId ++ str "&text="
    ++ str text

/-- An environment in which every script succeeds and no rune outside ASCII
has a lower-case form of its own. -/
def demoEnv : Env := { lowerTable := fun r => r, scriptOk := fun _ => true }

/-- An environment in which every script fails. -/
def failingEnv : Env := { lowerTable := fun r => r, scriptOk := fun _ => false }

/-- The update for a text message in chat `id`. -/
def textUpdate (seq id : Int) (text : String) : Update :=
  { UpdateID := seq
    Message := { MessageId := 1, Chat := { Id := id, Username := none, Firstname := none, Lastname := none }, Text := str text }
    CallbackQuery := default }

/-- The update for a pressed button with callback data `data` under a message
of chat `id`. -/
def buttonUpdate (seq id : Int) (data : String) : Update :=
  { UpdateID := seq
    Message := default
    CallbackQuery :=
      { Data := str data
        Message := { MessageId := 1, Chat := { Id := id, Username := none, Firstname := none, Lastname := none }, Text := [] } } }

/-! ## Lemmas on maps -/

theorem mapLookup_eq_none_iff {κ ν : Type} [DecidableEq κ] (m : GoMap κ ν) (k : κ) :
    mapLookup m k = none ↔ k ∉ mapKeys m := by
  induction m with
  | nil => simp [mapLookup, mapKeys]
  | cons p rest ih =>
    obtain ⟨k1, v⟩ := p
    by_cases hk : k1 = k
    · simp [mapLookup, mapKeys, hk]
    · have hk2 : ¬ k = k1 := fun h => hk h.symm
      simp only [mapKeys] at ih
      simp [mapLookup, mapKeys, hk, hk2, ih]

theorem mapLookup_of_mem {κ ν : Type} [DecidableEq κ] (m : GoMap κ ν) (k : κ)
    (h : k ∈ mapKeys m) : ∃ v, mapLookup m k = some v := by
  cases hl : mapLookup m k with
  | none => exact absurd h ((mapLookup_eq_none_iff m k).1 hl)
  | some v => exact ⟨v, rfl⟩

theorem mapKeys_mapAssign {κ ν : Type} [DecidableEq κ] (m : GoMap κ ν) (k : κ) (v : ν)
    (h : k ∈ mapKeys m) : mapKeys (mapAssign m k v) = mapKeys m := by
  induction m with
  | nil => simp [mapKeys] at h
  | cons p rest ih =>
    obtain ⟨k1, v1⟩ := p
    by_cases hk : k1 = k
    · simp [mapAssign, mapKeys, hk]
    · have hk2 : ¬ k = k1 := fun h => hk h.symm
      have hmem : k ∈ mapKeys rest := by
        simpa [mapKeys, hk2] using h
      have ih1 := ih hmem
      simp only [mapKeys] at ih1
      simp [mapAssign, mapKeys, hk, ih1]

theorem mapLookup_mapAssign_self {κ ν : Type} [DecidableEq κ] (m : GoMap κ ν) (k : κ) (v : ν) :
    mapLookup (mapAssign m k v) k = some v := by
  induction m with
  | nil => simp [mapAssign, mapLookup]
  | cons p rest ih =>
    obtain ⟨k1, v1⟩ := p
    by_cases hk : k1 = k
    · simp [mapAssign, mapLookup, hk]
    · simp [mapAssign, mapLookup, hk, ih]

theorem mapLookup_mapAssign_ne {κ ν : Type} [DecidableEq κ] (m : GoMap κ ν) (k j : κ) (v : ν)
    (h : j ≠ k) : mapLookup (mapAssign m k v) j = mapLookup m j := by
  induction m with
  | nil =>
    have hk : ¬ k = j := fun e => h e.symm
    simp [mapAssign, mapLookup, hk]
  | cons p rest ih =>
    obtain ⟨k1, v1⟩ := p
    by_cases hk : k1 = k
    · have hkj : ¬ k = j := fun e => h e.symm
      have hk1j : ¬ k1 = j := fun e => h (by rw [← e, hk])
      simp [mapAssign, mapLookup, hk, hkj, hk1j]
    · by_cases hj : k1 = j
      · subst hj
        simp [mapAssign, mapLookup, hk]
      · simp [mapAssign, mapLookup, hk, hj, ih]

/-! ## Lemmas on lower-casing -/

theorem decodeRuneInString_plain (b : UInt8) (t : GoString) (h : plainByte b) :
    decodeRuneInString (b :: t) = ((b.toNat : Int), 1) := by
  simp [decodeRuneInString, h.1]

theorem unicodeToLower_plain (table : Int → Int) (b : UInt8) (h : plainByte b) :
    unicodeToLower table (b.toNat : Int) = (b.toNat : Int) := by
  obtain ⟨h1, h2⟩ := h
  have h3 : ((b.toNat : Int)) ≤ 0x7F := by omega
  have h4 : ¬ ((65 : Int) ≤ (b.toNat : Int) ∧ (b.toNat : Int) ≤ 90) := by omega
  simp only [unicodeToLower, h3, h4, if_true, if_false]

theorem mapHead_plain_cons (table : Int → Int) (b : UInt8) (t : GoString) (h : plainByte b) :
    mapHead (unicodeToLower table) 0 (b :: t)
      = (mapHead (unicodeToLower table) 0 t).map (fun out => b :: out) := by
  have hne : ((b.toNat : Int)) ≠ runeError := by
    have := h.1
    simp only [runeError]
    omega
  simp [mapHead, decodeRuneInString_plain b t h, unicodeToLower_plain table b h, hne]

theorem stringsMap_plain_append (table : Int → Int) (p s : GoString)
    (h : ∀ b ∈ p, plainByte b) :
    stringsMap (unicodeToLower table) (p ++ s) = p ++ stringsMap (unicodeToLower table) s := by
  induction p with
  | nil => simp
  | cons b t ih =>
    have hb : plainByte b := h b (by simp)
    have ht : ∀ c ∈ t, plainByte c := fun c hc => h c (by simp [hc])
    have ih1 := ih ht
    simp only [stringsMap, List.cons_append, mapHead_plain_cons table b (t ++ s) hb] at ih1 ⊢
    cases hm : mapHead (unicodeToLower table) 0 (t ++ s) with
    | none => simp [hm] at ih1 ⊢; exact ih1
    | some out => simp [hm] at ih1 ⊢; exact ih1

/-- Lower-casing leaves a leading run of ASCII bytes that are not upper-case
letters in place and lower-cases the rest by itself. -/
theorem ToLower_plain_append (table : Int → Int) (p s : GoString)
    (h : ∀ b ∈ p, plainByte b) :
    ToLower table (p ++ s) = p ++ ToLower table s := by
  have hascii : p.all (fun c => decide (c.toNat < 0x80)) = true := by
    simp only [List.all_eq_true, decide_eq_true_eq]
    exact fun b hb => (h b hb).1
  have hupper : p.any (fun c => decide (65 ≤ c.toNat ∧ c.toNat ≤ 90)) = false := by
    rw [Bool.eq_false_iff]
    intro hany
    simp only [List.any_eq_true, decide_eq_true_eq] at hany
    obtain ⟨b, hb, hb2⟩ := hany
    exact (h b hb).2 hb2
  have hmap : p.map lowerByte = p := by
    have : ∀ b ∈ p, lowerByte b = b := fun b hb => by
      simp [lowerByte, (h b hb).2]
    calc p.map lowerByte = p.map id := List.map_congr_left this
      _ = p := by simp
  simp only [ToLower, List.all_append, List.any_append, hascii, hupper, Bool.true_and,
    Bool.false_or, List.map_append, hmap]
  by_cases h1 : s.all (fun c => decide (c.toNat < 0x80)) = true
  · simp only [h1, if_true]
    split <;> rfl
  · simp only [h1, if_false, Bool.false_eq_true]
    exact stringsMap_plain_append table p s h

theorem plain_stop_space : ∀ b ∈ str "stop ", plainByte b := by
  decide

theorem ToLower_stop_space (table : Int → Int) (name : GoString) :
    ToLower table (str "stop " ++ name) = str "stop " ++ ToLower table name :=
  ToLower_plain_append table (str "stop ") name plain_stop_space

/-! ## Lemmas on the URL of `sendMessage` -/

theorem cutAt_of_not_mem (sep : UInt8) (s : GoString) (h : sep ∉ s) : cutAt sep s = (s, []) := by
  induction s with
  | nil => rfl
  | cons b t ih =>
    have hb : ¬ b = sep := fun e => h (by simp [e])
    have ht : sep ∉ t := fun e => h (by simp [e])
    simp [cutAt, hb, ih ht]

theorem cutAt_append_sep (sep : UInt8) (a b : GoString) (h : sep ∉ a) :
    cutAt sep (a ++ sep :: b) = (a, b) := by
  induction a with
  | nil => simp [cutAt]
  | cons c t ih =>
    have hc : ¬ c = sep := fun e => h (by simp [e])
    have ht : sep ∉ t := fun e => h (by simp [e])
    simp [cutAt, hc, ih ht]

theorem validEscapes_of_no_percent (s : GoString) (h : (37 : UInt8) ∉ s) :
    validEscapes s = true := by
  induction s with
  | nil => rfl
  | cons c t ih =>
    have hc : ¬ c = 37 := fun e => h (by simp [e])
    have ht : (37 : UInt8) ∉ t := fun e => h (by simp [e])
    unfold validEscapes
    simp only [hc, if_false]
    exact ih ht

theorem digit_byte (d : Nat) (h : d < 10) :
    48 ≤ ((48 + d).toUInt8).toNat ∧ ((48 + d).toUInt8).toNat ≤ 57 := by
  interval_cases d <;> decide

theorem decimalDigits_bytes (fuel n : Nat) (acc : GoString)
    (hacc : ∀ b ∈ acc, 48 ≤ b.toNat ∧ b.toNat ≤ 57) :
    ∀ b ∈ decimalDigits fuel n acc, 48 ≤ b.toNat ∧ b.toNat ≤ 57 := by
  induction fuel generalizing n acc with
  | zero => simpa [decimalDigits] using hacc
  | succ k ih =>
    have hd := digit_byte (n % 10) (Nat.mod_lt n (by decide))
    have hacc1 : ∀ b ∈ (48 + n % 10).toUInt8 :: acc, 48 ≤ b.toNat ∧ b.toNat ≤ 57 := by
      intro b hb
      rcases List.mem_cons.1 hb with e | e
      · rw [e]
        exact hd
      · exact hacc b e
    unfold decimalDigits
    split
    · exact hacc1
    · exact ih (n / 10) _ hacc1

/-- The fuel `n + 1` that `formatInt` passes is enough: more fuel gives the
same digits. -/
theorem decimalDigits_fuel (fuel n : Nat) (acc : GoString) (h : n < fuel) :
    decimalDigits (fuel + 1) n acc = decimalDigits fuel n acc := by
  induction fuel generalizing n acc with
  | zero => omega
  | succ k ih =>
    by_cases h0 : n / 10 = 0
    · simp [decimalDigits, h0]
    · have hlt : n / 10 < k := by omega
      rw [decimalDigits, if_neg h0, ih (n / 10) _ hlt]
      conv_rhs => rw [decimalDigits, if_neg h0]

theorem formatInt_bytes (i : Int) :
    ∀ b ∈ formatInt i, b = 45 ∨ (48 ≤ b.toNat ∧ b.toNat ≤ 57) := by
  intro b hb
  unfold formatInt at hb
  split at hb
  · rcases List.mem_cons.1 hb with e | e
    · exact Or.inl e
    · exact Or.inr (decimalDigits_bytes _ _ [] (by simp) b e)
  · exact Or.inr (decimalDigits_bytes _ _ [] (by simp) b hb)

/-- With a clean token and a clean text the URL of `sendMessage` parses, and
the request is for the whole URL. -/
theorem httpGet_sendMessageURL (st : AppState) (chatId : Int) (text : GoString)
    (htok : cleanToken st.telegramBotToken = true) (htext : cleanText text = true) :
    httpGet (sendMessageURL st chatId text) = [Effect.httpGet (sendMessageURL st chatId text)] := by
  have hA : telegramAPIURL = str "https://api.telegram.org" ++ str "/bot" := by decide
  have hB : str "/sendMessage?chat_id=" = str "/sendMessage" ++ 63 :: str "chat_id=" := by decide
  have htok1 : ∀ b ∈ st.telegramBotToken,
      ¬ (b.toNat < 0x20 ∨ b.toNat = 0x7f) ∧ b ≠ 35 ∧ b ≠ 63 ∧ b ≠ 37 := by
    simpa [cleanToken] using htok
  have htext1 : ∀ b ∈ text, ¬ (b.toNat < 0x20 ∨ b.toNat = 0x7f) ∧ b ≠ 35 := by
    simpa [cleanText] using htext
  have hfmt : ∀ b ∈ formatInt chatId, ¬ (b.toNat < 0x20 ∨ b.toNat = 0x7f) ∧ b ≠ 35 := by
    intro b hb
    rcases formatInt_bytes chatId b hb with e | e
    · rw [e]
      decide
    · refine ⟨by omega, ?_⟩
      intro e35
      rw [e35] at e
      revert e
      decide
  have hshape : sendMessageURL st chatId text
      = str "https://api.telegram.org"
        ++ ((str "/bot" ++ st.telegramBotToken ++ str "/sendMessage")
          ++ 63 :: (str "chat_id=" ++ formatInt chatId ++ str "&text=" ++ text)) := by
    simp only [sendMessageURL, hA, hB, List.append_assoc, List.cons_append]
  have hclean : cleanText (sendMessageURL st chatId text) = true := by
    unfold cleanText sendMessageURL
    simp only [List.all_append, Bool.and_eq_true]
    refine ⟨⟨⟨⟨⟨by decide, ?_⟩, by decide⟩, ?_⟩, by decide⟩, htext⟩
    · simp only [List.all_eq_true, decide_eq_true_eq]
      exact fun b hb => ⟨(htok1 b hb).1, (htok1 b hb).2.1⟩
    · simp only [List.all_eq_true, decide_eq_true_eq]
      exact hfmt
  have hok : ∀ b ∈ sendMessageURL st chatId text,
      ¬ (b.toNat < 0x20 ∨ b.toNat = 0x7f) ∧ b ≠ 35 := by
    simpa [cleanText] using hclean
  have hhash : (35 : UInt8) ∉ sendMessageURL st chatId text := fun h => (hok 35 h).2 rfl
  have hctl : containsCTLByte (sendMessageURL st chatId text) = false := by
    rw [Bool.eq_false_iff]
    intro h
    simp only [containsCTLByte, List.any_eq_true, decide_eq_true_eq] at h
    obtain ⟨b, hb, hb2⟩ := h
    exact (hok b hb).1 hb2
  have hq : (63 : UInt8) ∉ str "/bot" ++ st.telegramBotToken ++ str "/sendMessage" := by
    intro h
    simp only [List.mem_append] at h
    rcases h with (h | h) | h
    · revert h
      decide
    · exact (htok1 63 h).2.2.1 rfl
    · revert h
      decide
  have hp : (37 : UInt8) ∉ str "/bot" ++ st.telegramBotToken ++ str "/sendMessage" := by
    intro h
    simp only [List.mem_append] at h
    rcases h with (h | h) | h
    · revert h
      decide
    · exact (htok1 37 h).2.2.2 rfl
    · revert h
      decide
  have hlen : (str "https://api.telegram.org").length = 24 := by decide
  have hpath : (cutAt 63 ((sendMessageURL st chatId text).drop 24)).1
      = str "/bot" ++ st.telegramBotToken ++ str "/sendMessage" := by
    rw [hshape, List.drop_left' hlen, cutAt_append_sep 63 _ _ hq]
  simp only [httpGet, urlParses, cutAt_of_not_mem 35 _ hhash, hctl, hpath,
    validEscapes_of_no_percent _ hp]
  simp

/-- A control byte in the text makes `http.Get` return an error before any
request exists, as long as no "#" stands in the URL. -/
theorem httpGet_control_byte (st : AppState) (chatId : Int) (text : GoString)
    (hhash : (35 : UInt8) ∉ sendMessageURL st chatId text)
    (hctl : containsCTLByte text = true) :
    httpGet (sendMessageURL st chatId text) = [] := by
  have hurl : containsCTLByte (sendMessageURL st chatId text) = true := by
    unfold containsCTLByte sendMessageURL
    unfold containsCTLByte at hctl
    rw [List.any_append, hctl, Bool.or_true]
  simp [httpGet, urlParses, cutAt_of_not_mem 35 _ hhash, hurl]

/-! ## Lemmas on the dispatcher -/

theorem handleService_returns (env : Env) (input : GoString) (chatId : Int) (command : GoString)
    (st : AppState) : ∃ effs, handleService env input chatId command st = some (st, effs) := by
  unfold handleService
  cases hl : mapLookup st.configuration.Hub input with
  | none => exact ⟨_, rfl⟩
  | some service =>
    by_cases hr : env.scriptOk (service.Path ++ command) = false
    · simp [commandService, sendMessage, hr]
    · simp [commandService, sendMessage, hr]

theorem handleCommand_returns (env : Env) (input : GoString) (chatId : Int) (st : AppState) :
    ∃ effs, handleCommand env input chatId st = some (st, effs) := by
  unfold handleCommand
  split
  · exact ⟨_, rfl⟩
  split
  · exact ⟨_, rfl⟩
  split
  · split
    · split
      · rename_i hlen
        have h5 : 5 < input.length := by omega
        have hb : byteAt input 5 = some (input.get ⟨5, h5⟩) := by
          simp [byteAt, List.get?_eq_get h5]
        have hs : sliceFrom input 5 = some (input.drop 5) := by
          have : 5 ≤ input.length := by omega
          simp [sliceFrom, this]
        rw [hb, hs]
        simp only
        split
        · exact handleService_returns env _ chatId _ st
        · exact ⟨_, rfl⟩
      · exact ⟨_, rfl⟩
    · exact ⟨_, rfl⟩
  · exact handleService_returns env _ chatId _ st

theorem startsWith_length (s p : GoString) (h : startsWith s p = true) : p.length ≤ s.length := by
  simp only [startsWith, decide_eq_true_eq] at h
  exact h.1

theorem handleInput_returns (env : Env) (input : GoString) (chatId : Int) (st : AppState) :
    ∃ effs, handleInput env input chatId st = some (st, effs) := by
  unfold handleInput
  split
  · rename_i hp
    have hlen : 1 ≤ input.length := startsWith_length input (str "/") hp
    have hs : sliceFrom input 1 = some (input.drop 1) := by
      simp [sliceFrom, hlen]
    rw [hs]
    exact handleCommand_returns env _ chatId st
  · exact ⟨_, rfl⟩

theorem processUpdate_message (env : Env) (update : Update) (st : AppState)
    (hmsg : update.CallbackQuery.Data = [])
    (hauth : update.Message.Chat.Id ∈ mapKeys st.configuration.Whitelist) :
    processUpdate env update st
      = handleInput env update.Message.Text update.Message.Chat.Id st := by
  obtain ⟨user, hu⟩ := mapLookup_of_mem _ _ hauth
  simp [processUpdate, actingChatId, hmsg, hu]

theorem handleInput_slash (env : Env) (c : GoString) (chatId : Int) (st : AppState) :
    handleInput env (str "/" ++ c) chatId st
      = handleCommand env (ToLower env.lowerTable c) chatId st := by
  have h1 : str "/" = [47] := by decide
  simp [handleInput, h1, startsWith, sliceFrom]

theorem processUpdate_callback (env : Env) (update : Update) (st : AppState) (user : User)
    (hcb : update.CallbackQuery.Data ≠ [])
    (hauth : mapLookup st.configuration.Whitelist update.CallbackQuery.Message.Chat.Id
      = some user) :
    processUpdate env update st
      = handleCallbackQuery update.CallbackQuery.Data
          update.CallbackQuery.Message.Chat.Id st := by
  simp [processUpdate, actingChatId, hcb, hauth]

theorem updateLocale_eq (locale : GoString) (chatId : Int) (st : AppState) (user : User)
    (h : mapLookup st.configuration.Whitelist chatId = some user) :
    ∃ st1, updateLocale locale chatId st
        = some (st1, Effect.writeConfig st1.configFilePath st1.configuration ::
            httpGet (sendMessageURL st chatId
              (ReplaceAll (mapIndex (mapIndex st.configuration.Localization locale)
                (str "welcome")).Text (str "%s") user.Username)))
      ∧ st1.configuration.Whitelist
          = mapAssign st.configuration.Whitelist chatId { user with Locale := locale }
      ∧ st1.configuration.AdminId = st.configuration.AdminId
      ∧ st1.configuration.Localization = st.configuration.Localization
      ∧ st1.configuration.Hub = st.configuration.Hub
      ∧ st1.services = st.services
      ∧ st1.telegramBotToken = st.telegramBotToken
      ∧ st1.configFilePath = st.configFilePath := by
  refine ⟨{ st with configuration :=
      { st.configuration with
        Whitelist := mapAssign st.configuration.Whitelist chatId
          { user with Locale := locale } } }, ?_, rfl, rfl, rfl, rfl, rfl, rfl, rfl⟩
  simp [updateLocale, h, writeToConfigFile, sendMessage, sendMessageURL, mapIndex,
    mapLookup_mapAssign_self]

theorem mem_mapKeys_of_mapLookup {κ ν : Type} [DecidableEq κ] (m : GoMap κ ν) (k : κ) (v : ν)
    (h : mapLookup m k = some v) : k ∈ mapKeys m := by
  by_contra hn
  rw [(mapLookup_eq_none_iff m k).2 hn] at h
  cases h

theorem occurrences_of_key {κ : Type} [DecidableEq κ] (keys : List κ) (h : keys.Nodup)
    (k : κ) : (keys.filter (fun j => decide (j = k))).length = if k ∈ keys then 1 else 0 := by
  induction keys with
  | nil => simp
  | cons a t ih =>
    have hn := List.nodup_cons.1 h
    have ih1 := ih hn.2
    by_cases ha : a = k
    · subst ha
      have hfilter : t.filter (fun j => decide (j = a)) = [] := by
        rw [List.filter_eq_nil_iff]
        intro j hj
        simp only [decide_eq_true_eq]
        intro hja
        exact hn.1 (hja ▸ hj)
      simp [List.filter_cons, hfilter]
    · have hk : ¬ k = a := fun e => ha e.symm
      simp only [List.filter_cons, ha, decide_False, Bool.false_eq_true, if_false, ih1,
        List.mem_cons, hk, false_or]

/-! ## Lemmas on the poller -/

theorem wrapInt_of_inRange (x : Int) (h1 : -2 ^ 63 ≤ x) (h2 : x < 2 ^ 63) : wrapInt x = x := by
  unfold wrapInt
  norm_num at h1 h2 ⊢
  omega

theorem dispatchBatch_append_one (offset : Int) (updates : List Update) (last : Update) :
    dispatchBatch offset (updates ++ [last])
      = (wrapInt (last.UpdateID + 1), (dispatchBatch offset updates).2 ++ [last]) := by
  simp [dispatchBatch, List.foldl_append]

theorem dispatchBatch_snd (offset : Int) (updates : List Update) :
    (dispatchBatch offset updates).2 = updates := by
  induction updates using List.reverseRecOn with
  | nil => rfl
  | append_singleton l a ih => rw [dispatchBatch_append_one, ih]

theorem le_last_of_sorted (ids : List Int) (a : Int)
    (h : List.Pairwise (fun x y => x ≤ y) (ids ++ [a])) : ∀ x ∈ ids ++ [a], x ≤ a := by
  intro x hx
  rw [List.pairwise_append] at h
  rcases List.mem_append.1 hx with hx1 | hx1
  · exact h.2.2 x hx1 a (by simp)
  · simp at hx1
    omega

theorem pollIteration_sorted {ε : Type} (offset : Int) (updates : List Update) (S : Int)
    (hne : updates ≠ [])
    (hsorted : List.Pairwise (fun x y => x ≤ y) (updates.map Update.UpdateID))
    (hmem : S ∈ updates.map Update.UpdateID)
    (hmax : ∀ x ∈ updates.map Update.UpdateID, x ≤ S)
    (hlo : -2 ^ 63 ≤ S) (hhi : S < 2 ^ 63 - 1) :
    pollIteration offset (Except.ok updates : Except ε (List Update)) = (S + 1, updates) := by
  obtain ⟨last, hlast⟩ : ∃ last, updates.getLast? = some last := by
    cases h : updates.getLast? with
    | none => exact absurd (List.getLast?_eq_none_iff.1 h) hne
    | some last => exact ⟨last, rfl⟩
  obtain ⟨init, hinit⟩ := List.getLast?_eq_some_iff.1 hlast
  subst hinit
  have hS : last.UpdateID = S := by
    rw [List.map_append, List.map_singleton] at hsorted hmem hmax
    have h1 := le_last_of_sorted _ _ hsorted S hmem
    have h2 := hmax last.UpdateID (by simp)
    omega
  have hw : wrapInt (last.UpdateID + 1) = S + 1 := by
    rw [hS]
    apply wrapInt_of_inRange
    · norm_num at hlo ⊢
      omega
    · norm_num at hhi ⊢
      omega
  have h2 := dispatchBatch_snd offset (init ++ [last])
  have h1 := dispatchBatch_append_one offset init last
  simp only [pollIteration]
  rw [Prod.ext_iff]
  exact ⟨by rw [h1]; exact hw, h2⟩

/-! ## Lemmas on the command classification -/

theorem str_stop_space : str "stop " = [115, 116, 111, 112, 32] := by decide

theorem str_slash_stop_space (name : GoString) :
    str "/stop " ++ name = str "/" ++ (str "stop " ++ name) := by
  have h : str "/stop " = str "/" ++ str "stop " := by decide
  rw [h, List.append_assoc]

theorem handleService_eq (env : Env) (input : GoString) (chatId : Int) (command : GoString)
    (st : AppState) :
    (∀ service, mapLookup st.configuration.Hub input = some service →
        handleService env input chatId command st
          = some (st, Effect.runScript (service.Path ++ command) ::
              httpGet (sendMessageURL st chatId (rendered st chatId
                (if env.scriptOk (service.Path ++ command) = true then str "success"
                 else str "failure")))))
      ∧ (mapLookup st.configuration.Hub input = none →
        handleService env input chatId command st
          = some (st, httpGet (sendMessageURL st chatId
              (rendered st chatId (str "unimplemented"))))) := by
  constructor
  · intro service hs
    by_cases hr : env.scriptOk (service.Path ++ command) = true
    · simp [handleService, hs, commandService, sendMessage, sendMessageURL, rendered, hr]
    · simp [handleService, hs, commandService, sendMessage, sendMessageURL, rendered, hr]
  · intro hs
    simp [handleService, hs, sendMessage, sendMessageURL, rendered]

theorem handleCommand_stop_non_admin (env : Env) (input : GoString) (chatId : Int)
    (st : AppState) (hp : startsWith input (str "stop") = true)
    (hadmin : chatId ≠ st.configuration.AdminId) :
    handleCommand env input chatId st
      = some (st, httpGet (sendMessageURL st chatId
          (rendered st chatId (str "unauthorized")))) := by
  have h1 : input ≠ str "start" := by
    intro h
    rw [h] at hp
    revert hp
    decide
  have h2 : input ≠ str "help" := by
    intro h
    rw [h] at hp
    revert hp
    decide
  simp [handleCommand, h1, h2, hp, hadmin, sendMessage, sendMessageURL, rendered]

theorem handleCommand_stop_admin (env : Env) (name : GoString) (chatId : Int) (st : AppState)
    (hadmin : chatId = st.configuration.AdminId) (hne : name ≠ [])
    (hsp : name.head? ≠ some 32) :
    handleCommand env (str "stop " ++ name) chatId st
      = handleService env name chatId (str "stop.sh") st := by
  cases name with
  | nil => exact absurd rfl hne
  | cons b t =>
    have hb : b ≠ 32 := by simpa using hsp
    have h1 : str "start" = [115, 116, 97, 114, 116] := by decide
    have h2 : str "help" = [104, 101, 108, 112] := by decide
    have h3 : str "stop" = [115, 116, 111, 112] := by decide
    simp [handleCommand, str_stop_space, h1, h2, h3, startsWith, hadmin, byteAt, sliceFrom, hb]

/-- What the administrator's branch of `handleCommand` does with a command
that begins with "stop": only the length and byte 5 are inspected, byte 4 is
not. -/
theorem handleCommand_stop_guard (env : Env) (input : GoString) (chatId : Int) (st : AppState)
    (hp : startsWith input (str "stop") = true) (hadmin : chatId = st.configuration.AdminId) :
    handleCommand env input chatId st
      = if 6 ≤ input.length ∧ byteAt input 5 ≠ some 32 then
          handleService env (input.drop 5) chatId (str "stop.sh") st
        else sendMessage chatId (localized st chatId (str "malformed")) st := by
  have h1 : input ≠ str "start" := by
    intro h
    rw [h] at hp
    revert hp
    decide
  have h2 : input ≠ str "help" := by
    intro h
    rw [h] at hp
    revert hp
    decide
  by_cases hlen : 6 ≤ input.length
  · have h5 : 5 < input.length := by omega
    have h5le : 5 ≤ input.length := by omega
    have hb : byteAt input 5 = some (input.get ⟨5, h5⟩) := List.get?_eq_get h5
    simp only [handleCommand, h1, h2, hp, hlen, if_true, if_false, true_and, hb]
    simp [hadmin, sliceFrom, h5le]
  · simp [handleCommand, h1, h2, hp, hadmin, hlen]

theorem handleCommand_start_service (env : Env) (input : GoString) (chatId : Int)
    (st : AppState) (h1 : input ≠ str "start") (h2 : input ≠ str "help")
    (h3 : startsWith input (str "stop") = false) :
    handleCommand env input chatId st = handleService env input chatId (str "start.sh") st := by
  simp [handleCommand, h1, h2, h3]

theorem slash_join (names : List GoString) (hne : names ≠ []) :
    str "/" ++ Join names (str " /") = Join (names.map (fun n => str "/" ++ n)) (str " ") := by
  have hsep : str " /" = str " " ++ str "/" := by decide
  induction names with
  | nil => exact absurd rfl hne
  | cons a rest ih =>
    cases rest with
    | nil => simp [Join]
    | cons b rest1 =>
      have ih1 := ih (by simp)
      simp only [Join, List.map_cons] at ih1 ⊢
      rw [← ih1, hsep]
      simp [List.append_assoc]

/-! ## Main results -/

/-- C1: an update whose acting conversation id is not a key of the allow-list
is dropped: the state stays as it is and there is no effect at all (no text or
button message, no rewrite of the configuration, no script run). -/
theorem processUpdate_unauthorized (env : Env) (update : Update) (st : AppState)
    (h : actingChatId update ∉ mapKeys st.configuration.Whitelist) :
    processUpdate env update st = some (st, []) := by
  have hl := (mapLookup_eq_none_iff st.configuration.Whitelist (actingChatId update)).2 h
  simp [processUpdate, hl]

/-- Instance of C1: a start command and a button press from the unknown chat 300. -/
theorem processUpdate_unauthorized_witness :
    processUpdate demoEnv (textUpdate 7 300 "/web") demoState = some (demoState, [])
      ∧ processUpdate demoEnv (buttonUpdate 8 300 "it") demoState = some (demoState, []) :=
  ⟨processUpdate_unauthorized demoEnv (textUpdate 7 300 "/web") demoState (by decide),
   processUpdate_unauthorized demoEnv (buttonUpdate 8 300 "it") demoState (by decide)⟩

/-- C5, as stated, fails: with the "welcome" template "Hi", line feed,
placeholder, the button "en" pressed by the operator 200 sets the locale and
rewrites the configuration file, but no message goes out: the HTTP client
rejects the URL with the line feed. -/
theorem callback_welcome_with_line_feed :
    mapIndex (mapIndex multilineState.configuration.Localization (str "en")) (str "welcome")
        = ⟨str "Hi\n%s"⟩
      ∧ (processUpdate demoEnv (buttonUpdate 9 200 "en") multilineState).map (fun o => o.2)
        = some [Effect.writeConfig (str "/etc/bot.json")
            { multilineConfig with
              Whitelist := [(100, ⟨str "root", str "en"⟩), (200, ⟨str "bob", str "en"⟩)] }] := by
  decide

/-- C5, amended: a callback (an update with callback data `p`, which the code
recognises by `p` being non-empty) from an allow-listed operator sets the
locale of that operator to "it" when `p` is "it" and to "en" otherwise,
rewrites the configuration file once, with the configuration after the change,
and calls `sendMessage` once, with the "welcome" template of the selected
locale: the text, placeholder replaced by the display name of the operator, is
pasted as it is into the URL handed to `http.Get`.  Exactly one request goes
out, for that URL, when token and text are clean; none goes out when the URL
does not parse. -/
theorem callback_sets_locale (env : Env) (update : Update) (st : AppState) (user : User)
    (hcb : update.CallbackQuery.Data ≠ [])
    (hauth : mapLookup st.configuration.Whitelist update.CallbackQuery.Message.Chat.Id
      = some user) :
    ∃ st1, processUpdate env update st
        = some (st1, Effect.writeConfig st1.configFilePath st1.configuration ::
            httpGet (sendMessageURL st update.CallbackQuery.Message.Chat.Id
              (ReplaceAll
                (mapIndex (mapIndex st.configuration.Localization
                  (if update.CallbackQuery.Data = str "it" then str "it" else str "en"))
                  (str "welcome")).Text
                (str "%s") user.Username)))
      ∧ mapLookup st1.configuration.Whitelist update.CallbackQuery.Message.Chat.Id
          = some { Username := user.Username,
                   Locale := if update.CallbackQuery.Data = str "it" then str "it"
                             else str "en" }
      ∧ (cleanToken st.telegramBotToken = true →
          cleanText (ReplaceAll
            (mapIndex (mapIndex st.configuration.Localization
              (if update.CallbackQuery.Data = str "it" then str "it" else str "en"))
              (str "welcome")).Text
            (str "%s") user.Username) = true →
          processUpdate env update st
            = some (st1, [Effect.writeConfig st1.configFilePath st1.configuration,
                Effect.httpGet (sendMessageURL st update.CallbackQuery.Message.Chat.Id
                  (ReplaceAll
                    (mapIndex (mapIndex st.configuration.Localization
                      (if update.CallbackQuery.Data = str "it" then str "it" else str "en"))
                      (str "welcome")).Text
                    (str "%s") user.Username))])) := by
  have key : ∀ locale,
      locale = (if update.CallbackQuery.Data = str "it" then str "it" else str "en") →
      handleCallbackQuery update.CallbackQuery.Data update.CallbackQuery.Message.Chat.Id st
        = updateLocale locale update.CallbackQuery.Message.Chat.Id st := by
    intro locale hlocale
    rw [hlocale]
    unfold handleCallbackQuery
    split <;> rfl
  obtain ⟨st1, h1, h2, _⟩ :=
    updateLocale_eq (if update.CallbackQuery.Data = str "it" then str "it" else str "en")
      update.CallbackQuery.Message.Chat.Id st user hauth
  have hrun := processUpdate_callback env update st user hcb hauth
  rw [key _ rfl, h1] at hrun
  refine ⟨st1, hrun, ?_, ?_⟩
  · rw [h2, mapLookup_mapAssign_self]
  · intro htok htext
    rw [hrun, httpGet_sendMessageURL st _ _ htok htext]

/-- Instance of the amended C5: the operator 200, whose locale is "it",
presses a button whose data is neither "it" nor "en". -/
theorem callback_sets_locale_witness :
    ∃ st1, processUpdate demoEnv (buttonUpdate 9 200 "fr") demoState
        = some (st1, [Effect.writeConfig st1.configFilePath st1.configuration,
            Effect.httpGet (demoURL "200" "Welcome_bob")])
      ∧ mapLookup st1.configuration.Whitelist 200
          = some { Username := str "bob", Locale := str "en" } := by
  obtain ⟨st1, _, h2, h3⟩ :=
    callback_sets_locale demoEnv (buttonUpdate 9 200 "fr") demoState ⟨str "bob", str "it"⟩
      (by decide) (by decide)
  exact ⟨st1, h3 (by decide) (by decide), h2⟩

/-- C9: `processUpdate` always returns, and the state it leaves differs from the
one it found at most in the locale of the acting operator: after a plain
message the state is the same; after any update the allow-listed ids, every
display name, the entry of every other operator, the administrator id, the
locale catalog, the service registry, the help text, the token and the path of
the configuration file are the same. -/
theorem processUpdate_frame (env : Env) (update : Update) (st : AppState) :
    ∃ st1 effs, processUpdate env update st = some (st1, effs)
      ∧ (update.CallbackQuery.Data = [] → st1 = st)
      ∧ mapKeys st1.configuration.Whitelist = mapKeys st.configuration.Whitelist
      ∧ (∀ id, (mapLookup st1.configuration.Whitelist id).map User.Username
            = (mapLookup st.configuration.Whitelist id).map User.Username)
      ∧ (∀ id, id ≠ actingChatId update →
            mapLookup st1.configuration.Whitelist id = mapLookup st.configuration.Whitelist id)
      ∧ st1.configuration.AdminId = st.configuration.AdminId
      ∧ st1.configuration.Localization = st.configuration.Localization
      ∧ st1.configuration.Hub = st.configuration.Hub
      ∧ st1.services = st.services
      ∧ st1.telegramBotToken = st.telegramBotToken
      ∧ st1.configFilePath = st.configFilePath := by
  cases hl : mapLookup st.configuration.Whitelist (actingChatId update) with
  | none =>
    exact ⟨st, [], by simp [processUpdate, hl], fun _ => rfl, rfl, fun _ => rfl,
      fun _ _ => rfl, rfl, rfl, rfl, rfl, rfl, rfl⟩
  | some user =>
    by_cases hcb : update.CallbackQuery.Data = []
    · have hid : actingChatId update = update.Message.Chat.Id := by simp [actingChatId, hcb]
      rw [hid] at hl
      obtain ⟨effs, he⟩ :=
        handleInput_returns env update.Message.Text update.Message.Chat.Id st
      refine ⟨st, effs, ?_, fun _ => rfl, rfl, fun _ => rfl, fun _ _ => rfl, rfl, rfl, rfl,
        rfl, rfl, rfl⟩
      rw [processUpdate_message env update st hcb (mem_mapKeys_of_mapLookup _ _ _ hl), he]
    · have hid : actingChatId update = update.CallbackQuery.Message.Chat.Id := by
        simp [actingChatId, hcb]
      rw [hid] at hl
      rw [hid]
      have key : ∀ locale, ∃ st1 effs,
          updateLocale locale update.CallbackQuery.Message.Chat.Id st = some (st1, effs)
          ∧ (update.CallbackQuery.Data = [] → st1 = st)
          ∧ mapKeys st1.configuration.Whitelist = mapKeys st.configuration.Whitelist
          ∧ (∀ id, (mapLookup st1.configuration.Whitelist id).map User.Username
                = (mapLookup st.configuration.Whitelist id).map User.Username)
          ∧ (∀ id, id ≠ update.CallbackQuery.Message.Chat.Id →
                mapLookup st1.configuration.Whitelist id
                  = mapLookup st.configuration.Whitelist id)
          ∧ st1.configuration.AdminId = st.configuration.AdminId
          ∧ st1.configuration.Localization = st.configuration.Localization
          ∧ st1.configuration.Hub = st.configuration.Hub
          ∧ st1.services = st.services
          ∧ st1.telegramBotToken = st.telegramBotToken
          ∧ st1.configFilePath = st.configFilePath := by
        intro locale
        obtain ⟨st1, h1, h2, h3, h4, h5, h6, h7, h8⟩ :=
          updateLocale_eq locale update.CallbackQuery.Message.Chat.Id st user hl
        refine ⟨st1, _, h1, fun h => absurd h hcb, ?_, ?_, ?_, h3, h4, h5, h6, h7, h8⟩
        · rw [h2]
          exact mapKeys_mapAssign _ _ _ (mem_mapKeys_of_mapLookup _ _ _ hl)
        · intro id
          by_cases hi : id = update.CallbackQuery.Message.Chat.Id
          · rw [hi, h2, mapLookup_mapAssign_self, hl]
            rfl
          · rw [h2, mapLookup_mapAssign_ne _ _ _ _ hi]
        · intro id hi
          rw [h2, mapLookup_mapAssign_ne _ _ _ _ hi]
      rw [processUpdate_callback env update st user hcb hl]
      unfold handleCallbackQuery
      split
      · exact key (str "it")
      · exact key (str "en")

/-- Instance of C9: the operator 200 selects "en"; the entry of the
administrator is not touched. -/
theorem processUpdate_frame_witness :
    ∃ st1 effs, processUpdate demoEnv (buttonUpdate 9 200 "en") demoState = some (st1, effs)
      ∧ mapLookup st1.configuration.Whitelist 100 = some ⟨str "root", str "en"⟩
      ∧ st1.configuration.Hub = demoState.configuration.Hub := by
  obtain ⟨st1, effs, h1, _, _, _, h5, _, _, h8, _⟩ :=
    processUpdate_frame demoEnv (buttonUpdate 9 200 "en") demoState
  exact ⟨st1, effs, h1, by rw [h5 100 (by decide)]; decide, h8⟩

/-- C6, as stated, fails: for the batch with the sequence numbers 5, 3 (in this
order) the cursor after the iteration is 4, not one plus the highest sequence
number 5. -/
theorem poll_cursor_out_of_order :
    (∀ u ∈ [textUpdate 5 200 "/web", textUpdate 3 200 "/help"], u.UpdateID ≤ 5)
      ∧ (pollIteration 0
          (Except.ok [textUpdate 5 200 "/web", textUpdate 3 200 "/help"] :
            Except Unit (List Update))).1 = 4
      ∧ (pollIteration 0
          (Except.ok [textUpdate 5 200 "/web", textUpdate 3 200 "/help"] :
            Except Unit (List Update))).1 ≠ 5 + 1 := by
  decide

/-- C6, amended: a failed fetch and an empty batch leave the cursor unchanged
(and dispatch nothing); for a non-empty batch whose sequence numbers are in
non-decreasing order, with highest sequence number `S` below the largest
machine integer, every update of the batch is dispatched and the cursor after
the iteration is `S + 1`, which is strictly after `S`. -/
theorem poll_cursor_in_order {ε : Type} (offset : Int) (fetched : Except ε (List Update)) :
    (∀ e, fetched = Except.error e → pollIteration offset fetched = (offset, []))
      ∧ (fetched = Except.ok [] → pollIteration offset fetched = (offset, []))
      ∧ (∀ updates S, fetched = Except.ok updates → updates ≠ [] →
          List.Pairwise (fun x y => x ≤ y) (updates.map Update.UpdateID) →
          S ∈ updates.map Update.UpdateID →
          (∀ x ∈ updates.map Update.UpdateID, x ≤ S) →
          -2 ^ 63 ≤ S → S < 2 ^ 63 - 1 →
          pollIteration offset fetched = (S + 1, updates)
            ∧ S < (pollIteration offset fetched).1) := by
  refine ⟨?_, ?_, ?_⟩
  · intro e he
    rw [he]
    rfl
  · intro he
    rw [he]
    rfl
  · intro updates S he hne hsorted hmem hmax hlo hhi
    rw [he, pollIteration_sorted offset updates S hne hsorted hmem hmax hlo hhi]
    exact ⟨rfl, by simp⟩

/-- Instance of the amended C6: the batch 3, 5 moves the cursor from 0 to 6. -/
theorem poll_cursor_in_order_witness :
    pollIteration 0
        (Except.ok [textUpdate 3 200 "/help", textUpdate 5 200 "/web"] :
          Except Unit (List Update))
      = (5 + 1, [textUpdate 3 200 "/help", textUpdate 5 200 "/web"])
    ∧ (5 : Int) < (pollIteration 0
        (Except.ok [textUpdate 3 200 "/help", textUpdate 5 200 "/web"] :
          Except Unit (List Update))).1 :=
  (poll_cursor_in_order 0
    (Except.ok [textUpdate 3 200 "/help", textUpdate 5 200 "/web"] :
      Except Unit (List Update))).2.2
    [textUpdate 3 200 "/help", textUpdate 5 200 "/web"] 5 rfl (by decide) (by decide)
    (by decide) (by decide) (by decide) (by decide)

/-- C2, as stated, fails: with the "unauthorized" template "vietato", line
feed, placeholder, the "/stop web" of the operator 200, who is not the
administrator, is answered by no message at all: the HTTP client rejects the
URL with the line feed. -/
theorem refusal_with_line_feed :
    localized multilineState 200 (str "unauthorized") = str "vietato\n%s"
      ∧ (200 : Int) ≠ multilineState.configuration.AdminId
      ∧ processUpdate demoEnv (textUpdate 1 200 "/stop web") multilineState
        = some (multilineState, []) := by
  decide

/-- C2, amended: a plain message from an allow-listed operator who is not the
administrator, whose text is "/stop " followed by any name, or more generally
"/" followed by a command whose lower-cased form begins with "stop", runs no
script, leaves the state unchanged and calls `sendMessage` once, with the
"unauthorized" template of the locale of that operator: the text, placeholder
replaced by the display name, is pasted as it is into the URL handed to
`http.Get`, which is the only effect.  Exactly one request goes out, for that
URL, when token and text are clean; none goes out when the URL does not
parse. -/
theorem stop_from_non_admin (env : Env) (update : Update) (st : AppState)
    (hmsg : update.CallbackQuery.Data = [])
    (hauth : update.Message.Chat.Id ∈ mapKeys st.configuration.Whitelist)
    (hadmin : update.Message.Chat.Id ≠ st.configuration.AdminId) :
    ((∀ name, update.Message.Text = str "/stop " ++ name →
        processUpdate env update st
          = some (st, httpGet (sendMessageURL st update.Message.Chat.Id
              (rendered st update.Message.Chat.Id (str "unauthorized")))))
      ∧ (∀ c, update.Message.Text = str "/" ++ c →
          startsWith (ToLower env.lowerTable c) (str "stop") = true →
          processUpdate env update st
            = some (st, httpGet (sendMessageURL st update.Message.Chat.Id
                (rendered st update.Message.Chat.Id (str "unauthorized"))))))
      ∧ (cleanToken st.telegramBotToken = true →
          cleanText (rendered st update.Message.Chat.Id (str "unauthorized")) = true →
          httpGet (sendMessageURL st update.Message.Chat.Id
              (rendered st update.Message.Chat.Id (str "unauthorized")))
            = [Effect.httpGet (sendMessageURL st update.Message.Chat.Id
                (rendered st update.Message.Chat.Id (str "unauthorized")))])
      ∧ (∀ path, Effect.runScript path ∉
          httpGet (sendMessageURL st update.Message.Chat.Id
            (rendered st update.Message.Chat.Id (str "unauthorized")))) := by
  have general : ∀ c, update.Message.Text = str "/" ++ c →
      startsWith (ToLower env.lowerTable c) (str "stop") = true →
      processUpdate env update st
        = some (st, httpGet (sendMessageURL st update.Message.Chat.Id
            (rendered st update.Message.Chat.Id (str "unauthorized")))) := by
    intro c htext hp
    rw [processUpdate_message env update st hmsg hauth, htext, handleInput_slash]
    exact handleCommand_stop_non_admin env _ _ st hp hadmin
  refine ⟨⟨?_, general⟩, ?_, ?_⟩
  · intro name htext
    apply general (str "stop " ++ name)
    · rw [htext, str_slash_stop_space]
    · rw [ToLower_stop_space, str_stop_space]
      have h3 : str "stop" = [115, 116, 111, 112] := by decide
      simp [startsWith, h3]
  · exact httpGet_sendMessageURL st _ _
  · intro path hmem
    unfold httpGet at hmem
    split at hmem
    · simp at hmem
    · simp at hmem

/-- Instance of the amended C2: the operator 200 (locale "it") asks to stop
"web". -/
theorem stop_from_non_admin_witness :
    processUpdate demoEnv (textUpdate 1 200 "/stop web") demoState
      = some (demoState, httpGet (sendMessageURL demoState 200
          (rendered demoState 200 (str "unauthorized"))))
    ∧ httpGet (sendMessageURL demoState 200 (rendered demoState 200 (str "unauthorized")))
      = [Effect.httpGet (sendMessageURL demoState 200
          (rendered demoState 200 (str "unauthorized")))]
    ∧ sendMessageURL demoState 200 (rendered demoState 200 (str "unauthorized"))
      = demoURL "200" "vietato,bob" :=
  ⟨(stop_from_non_admin demoEnv (textUpdate 1 200 "/stop web") demoState
      (by decide) (by decide) (by decide)).1.1 (str "web") (by decide),
   (stop_from_non_admin demoEnv (textUpdate 1 200 "/stop web") demoState
      (by decide) (by decide) (by decide)).2.1 (by decide) (by decide),
   by decide⟩

/-- C3, as stated, fails.  The name after "/stop " is not looked up literally:
with the registry key "Db", the administrator's "/stop Db" runs no script and
is answered "unimplemented"; "/stop Web", where "Web" is no registry key, runs
the stop script of "web"; and "/stop  web" (the name " web") is answered
"malformed", not "unimplemented".  And the response need not go out: with the
"success" template "done", line feed, "/stop web" runs the script and sends
nothing. -/
theorem stop_name_is_case_folded :
    (mapLookup demoState.configuration.Hub (str "Db") = some ⟨str "/srv/db/"⟩
      ∧ processUpdate demoEnv (textUpdate 1 100 "/stop Db") demoState
          = some (demoState, [Effect.httpGet (demoURL "100" "unknown")]))
    ∧ (mapLookup demoState.configuration.Hub (str "Web") = none
      ∧ processUpdate demoEnv (textUpdate 2 100 "/stop Web") demoState
          = some (demoState, [Effect.runScript (str "/srv/web/stop.sh"),
              Effect.httpGet (demoURL "100" "done")]))
    ∧ (mapLookup demoState.configuration.Hub (str " web") = none
      ∧ processUpdate demoEnv (textUpdate 3 100 "/stop  web") demoState
          = some (demoState, [Effect.httpGet (demoURL "100" "what?")]))
    ∧ (localized multilineState 100 (str "success") = str "done\n"
      ∧ processUpdate demoEnv (textUpdate 4 100 "/stop web") multilineState
          = some (multilineState, [Effect.runScript (str "/srv/web/stop.sh")])) := by
  decide

/-- C3, amended: for a name whose lower-cased form is non-empty and does not
begin with a space, the administrator's message "/stop " followed by the name
looks up the lower-cased name in the registry.  When it is a key, the script
at that key's path followed by "stop.sh" is run exactly once and `sendMessage`
is called once, with the localized "success" when the run succeeds and
"failure" otherwise; when it is not a key, no script is run and `sendMessage`
is called once, with the localized "unimplemented".  The text, placeholder
replaced by the display name, is pasted as it is into the URL handed to
`http.Get`: exactly one request goes out, for that URL, when token and text are
clean; none goes out when the URL does not parse. -/
theorem stop_from_admin (env : Env) (update : Update) (st : AppState) (name : GoString)
    (hmsg : update.CallbackQuery.Data = [])
    (hid : update.Message.Chat.Id = st.configuration.AdminId)
    (hauth : st.configuration.AdminId ∈ mapKeys st.configuration.Whitelist)
    (htext : update.Message.Text = str "/stop " ++ name)
    (hne : ToLower env.lowerTable name ≠ [])
    (hsp : (ToLower env.lowerTable name).head? ≠ some 32) :
    (∀ service,
        mapLookup st.configuration.Hub (ToLower env.lowerTable name) = some service →
        processUpdate env update st
          = some (st, Effect.runScript (service.Path ++ str "stop.sh") ::
              httpGet (sendMessageURL st update.Message.Chat.Id
                (rendered st update.Message.Chat.Id
                  (if env.scriptOk (service.Path ++ str "stop.sh") = true then str "success"
                   else str "failure")))))
      ∧ (mapLookup st.configuration.Hub (ToLower env.lowerTable name) = none →
        processUpdate env update st
          = some (st, httpGet (sendMessageURL st update.Message.Chat.Id
              (rendered st update.Message.Chat.Id (str "unimplemented")))))
      ∧ (∀ key, cleanToken st.telegramBotToken = true →
          cleanText (rendered st update.Message.Chat.Id key) = true →
          httpGet (sendMessageURL st update.Message.Chat.Id
              (rendered st update.Message.Chat.Id key))
            = [Effect.httpGet (sendMessageURL st update.Message.Chat.Id
                (rendered st update.Message.Chat.Id key))]) := by
  have hmem : update.Message.Chat.Id ∈ mapKeys st.configuration.Whitelist := by
    rw [hid]
    exact hauth
  have hrun : processUpdate env update st
      = handleService env (ToLower env.lowerTable name) update.Message.Chat.Id
          (str "stop.sh") st := by
    rw [processUpdate_message env update st hmsg hmem, htext, str_slash_stop_space,
      handleInput_slash, ToLower_stop_space]
    exact handleCommand_stop_admin env _ _ st hid hne hsp
  rw [hrun]
  exact ⟨(handleService_eq env _ _ _ st).1, (handleService_eq env _ _ _ st).2,
    fun key htok hclean => httpGet_sendMessageURL st _ _ htok hclean⟩

/-- Instance of the amended C3: "/stop Web" from the administrator 100. -/
theorem stop_from_admin_witness :
    processUpdate demoEnv (textUpdate 2 100 "/stop Web") demoState
      = some (demoState, Effect.runScript (str "/srv/web/" ++ str "stop.sh") ::
          httpGet (sendMessageURL demoState 100 (rendered demoState 100
            (if demoEnv.scriptOk (str "/srv/web/" ++ str "stop.sh") = true then str "success"
             else str "failure"))))
    ∧ httpGet (sendMessageURL demoState 100 (rendered demoState 100 (str "success")))
      = [Effect.httpGet (sendMessageURL demoState 100 (rendered demoState 100 (str "success")))]
    ∧ sendMessageURL demoState 100 (rendered demoState 100 (str "success"))
      = demoURL "100" "done" :=
  ⟨(stop_from_admin demoEnv (textUpdate 2 100 "/stop Web") demoState (str "Web")
      (by decide) (by decide) (by decide) (by decide) (by decide) (by decide)).1
      ⟨str "/srv/web/"⟩ (by decide),
   (stop_from_admin demoEnv (textUpdate 2 100 "/stop Web") demoState (str "Web")
      (by decide) (by decide) (by decide) (by decide) (by decide) (by decide)).2.2
      (str "success") (by decide) (by decide),
   by decide⟩

/-- C4, as stated, fails.  A registry key that does not begin with "stop" need
not be started: "/Db" (key "Db") is answered "unimplemented" and runs no
script, because the lower-cased "db" is looked up; "/help" (key "help") is
answered with the help text and runs no script.  And the response need not go
out: with the "success" template "fatto", line feed, "/web" runs the script
and sends nothing. -/
theorem start_name_is_case_folded :
    (mapLookup demoState.configuration.Hub (str "Db") = some ⟨str "/srv/db/"⟩
      ∧ startsWith (str "Db") (str "stop") = false
      ∧ processUpdate demoEnv (textUpdate 1 200 "/Db") demoState
          = some (demoState, [Effect.httpGet (demoURL "200" "ignoto")]))
    ∧ (mapLookup demoState.configuration.Hub (str "help") = some ⟨str "/srv/help/"⟩
      ∧ startsWith (str "help") (str "stop") = false
      ∧ processUpdate demoEnv (textUpdate 2 200 "/help") demoState
          = some (demoState, [Effect.httpGet (demoURL "200" "/web /Db /help")]))
    ∧ (localized multilineState 200 (str "success") = str "fatto\n"
      ∧ mapLookup multilineState.configuration.Hub (str "web") = some ⟨str "/srv/web/"⟩
      ∧ processUpdate demoEnv (textUpdate 3 200 "/web") multilineState
          = some (multilineState, [Effect.runScript (str "/srv/web/start.sh")])) := by
  decide

/-- C4, amended: for a registry key that is its own lower-cased form, is
neither "start" nor "help" and does not begin with "stop", the message "/"
followed by the key, from an allow-listed operator, runs exactly one script,
the key's path followed by "start.sh", and calls `sendMessage` once, with the
localized "success" when the run succeeds and the localized "failure" when it
fails.  The text, placeholder replaced by the display name, is pasted as it is
into the URL handed to `http.Get`: exactly one request goes out, for that URL,
when token and text are clean; none goes out when the URL does not parse. -/
theorem start_registered_service (env : Env) (update : Update) (st : AppState)
    (name : GoString) (service : Service)
    (hmsg : update.CallbackQuery.Data = [])
    (hauth : update.Message.Chat.Id ∈ mapKeys st.configuration.Whitelist)
    (htext : update.Message.Text = str "/" ++ name)
    (hkey : mapLookup st.configuration.Hub name = some service)
    (hlower : ToLower env.lowerTable name = name)
    (hstart : name ≠ str "start") (hhelp : name ≠ str "help")
    (hstop : startsWith name (str "stop") = false) :
    processUpdate env update st
        = some (st, Effect.runScript (service.Path ++ str "start.sh") ::
            httpGet (sendMessageURL st update.Message.Chat.Id
              (rendered st update.Message.Chat.Id
                (if env.scriptOk (service.Path ++ str "start.sh") = true then str "success"
                 else str "failure"))))
      ∧ (∀ key, cleanToken st.telegramBotToken = true →
          cleanText (rendered st update.Message.Chat.Id key) = true →
          httpGet (sendMessageURL st update.Message.Chat.Id
              (rendered st update.Message.Chat.Id key))
            = [Effect.httpGet (sendMessageURL st update.Message.Chat.Id
                (rendered st update.Message.Chat.Id key))]) := by
  refine ⟨?_, fun key htok hclean => httpGet_sendMessageURL st _ _ htok hclean⟩
  rw [processUpdate_message env update st hmsg hauth, htext, handleInput_slash, hlower,
    handleCommand_start_service env name _ st hstart hhelp hstop]
  exact (handleService_eq env name _ _ st).1 service hkey

/-- Instance of the amended C4: the operator 200 starts "web" while every
script fails. -/
theorem start_registered_service_witness :
    processUpdate failingEnv (textUpdate 1 200 "/web") demoState
      = some (demoState, Effect.runScript (str "/srv/web/" ++ str "start.sh") ::
          httpGet (sendMessageURL demoState 200 (rendered demoState 200
            (if failingEnv.scriptOk (str "/srv/web/" ++ str "start.sh") = true
             then str "success" else str "failure"))))
    ∧ httpGet (sendMessageURL demoState 200 (rendered demoState 200 (str "failure")))
      = [Effect.httpGet (sendMessageURL demoState 200 (rendered demoState 200 (str "failure")))]
    ∧ sendMessageURL demoState 200 (rendered demoState 200 (str "failure"))
      = demoURL "200" "fallito" :=
  ⟨(start_registered_service failingEnv (textUpdate 1 200 "/web") demoState (str "web")
      ⟨str "/srv/web/"⟩ (by decide) (by decide) (by decide) (by decide) (by decide)
      (by decide) (by decide) (by decide)).1,
   (start_registered_service failingEnv (textUpdate 1 200 "/web") demoState (str "web")
      ⟨str "/srv/web/"⟩ (by decide) (by decide) (by decide) (by decide) (by decide)
      (by decide) (by decide) (by decide)).2 (str "failure") (by decide) (by decide),
   by decide⟩

/-- C7: the code at a failing input.  The administrator's "/stopxweb" is not of
the form "stop", one space, name, yet it is not answered "malformed": the stop
script of "web" is run and "done" is sent.  "/stopweb" is answered
"unimplemented".  The commands shorter than six bytes ("/stop", "/stop ") are
answered "malformed". -/
theorem stop_without_separator :
    processUpdate demoEnv (textUpdate 1 100 "/stopxweb") demoState
        = some (demoState, [Effect.runScript (str "/srv/web/stop.sh"),
            Effect.httpGet (demoURL "100" "done")])
      ∧ processUpdate demoEnv (textUpdate 2 100 "/stopweb") demoState
        = some (demoState, [Effect.httpGet (demoURL "100" "unknown")])
      ∧ processUpdate demoEnv (textUpdate 3 100 "/stop") demoState
        = some (demoState, [Effect.httpGet (demoURL "100" "what?")])
      ∧ processUpdate demoEnv (textUpdate 4 100 "/stop ") demoState
        = some (demoState, [Effect.httpGet (demoURL "100" "what?")]) := by
  decide

/-- C8, as stated, fails: with an empty registry the text sent for "/help" is
"/", not the empty join; a registry name that holds the placeholder is not
listed as it is, the placeholder being replaced by the display name; and with
a registry name that holds a line feed no message goes out at all. -/
theorem help_text_empty_registry :
    (processUpdate demoEnv (textUpdate 1 200 "/help")
          (loadConfigFile demoToken (str "/etc/bot.json") emptyHubConfig)
        = some (loadConfigFile demoToken (str "/etc/bot.json") emptyHubConfig,
            [Effect.httpGet (demoURL "200" "/")])
      ∧ Join ((mapKeys emptyHubConfig.Hub).map (fun n => str "/" ++ n)) (str " ") = []
      ∧ str "/" ≠ [])
    ∧ (processUpdate demoEnv (textUpdate 2 200 "/help")
          (loadConfigFile demoToken (str "/etc/bot.json") placeholderHubConfig)
        = some (loadConfigFile demoToken (str "/etc/bot.json") placeholderHubConfig,
            [Effect.httpGet (demoURL "200" "/abobb")])
      ∧ Join ((mapKeys placeholderHubConfig.Hub).map (fun n => str "/" ++ n)) (str " ")
          = str "/a%sb")
    ∧ (mapKeys multilineConfig.Hub = [str "web", str "a\nb"]
      ∧ processUpdate demoEnv (textUpdate 3 200 "/help") multilineState
        = some (multilineState, [])) := by
  decide

/-- C8, amended: for a non-empty registry loaded at start-up, the message
"/" followed by any spelling of "help" (a command whose lower-cased form is
"help"), from an allow-listed operator, runs no script and calls `sendMessage`
once.  Its text is the list of the registered names, each prefixed with "/"
and joined by single spaces, in which every occurrence of the placeholder is
replaced by the display name of the operator; every registered name is listed
exactly once and no other name is listed.  The text is pasted as it is into
the URL handed to `http.Get`: exactly one request goes out, for that URL, when
token and text are clean; none goes out when the URL does not parse. -/
theorem help_lists_services (env : Env) (token path : GoString) (cfg : Config)
    (update : Update) (c : GoString)
    (hmsg : update.CallbackQuery.Data = [])
    (hauth : update.Message.Chat.Id ∈ mapKeys cfg.Whitelist)
    (htext : update.Message.Text = str "/" ++ c)
    (hhelp : ToLower env.lowerTable c = str "help")
    (hne : cfg.Hub ≠ [])
    (hwf : (mapKeys cfg.Hub).Nodup) :
    processUpdate env update (loadConfigFile token path cfg)
        = some (loadConfigFile token path cfg,
            httpGet (sendMessageURL (loadConfigFile token path cfg) update.Message.Chat.Id
              (ReplaceAll
                (Join ((mapKeys cfg.Hub).map (fun n => str "/" ++ n)) (str " "))
                (str "%s") (mapIndex cfg.Whitelist update.Message.Chat.Id).Username)))
      ∧ (∀ n, ((mapKeys cfg.Hub).filter (fun k => decide (k = n))).length
            = if (mapLookup cfg.Hub n).isSome then 1 else 0)
      ∧ (cleanToken token = true →
          cleanText (ReplaceAll
            (Join ((mapKeys cfg.Hub).map (fun n => str "/" ++ n)) (str " "))
            (str "%s") (mapIndex cfg.Whitelist update.Message.Chat.Id).Username) = true →
          httpGet (sendMessageURL (loadConfigFile token path cfg) update.Message.Chat.Id
              (ReplaceAll
                (Join ((mapKeys cfg.Hub).map (fun n => str "/" ++ n)) (str " "))
                (str "%s") (mapIndex cfg.Whitelist update.Message.Chat.Id).Username))
            = [Effect.httpGet
                (sendMessageURL (loadConfigFile token path cfg) update.Message.Chat.Id
                  (ReplaceAll
                    (Join ((mapKeys cfg.Hub).map (fun n => str "/" ++ n)) (str " "))
                    (str "%s")
                    (mapIndex cfg.Whitelist update.Message.Chat.Id).Username))]) := by
  refine ⟨?_, ?_, ?_⟩
  · have hkeys : mapKeys cfg.Hub ≠ [] := by
      simpa [mapKeys] using hne
    have hne2 : str "help" ≠ str "start" := by decide
    rw [processUpdate_message env update (loadConfigFile token path cfg) hmsg hauth, htext,
      handleInput_slash, hhelp]
    simp only [handleCommand, hne2, if_false, if_true, sendMessage, sendMessageURL]
    simp only [loadConfigFile]
    rw [slash_join (mapKeys cfg.Hub) hkeys]
  · intro n
    rw [occurrences_of_key (mapKeys cfg.Hub) hwf n]
    cases hl : mapLookup cfg.Hub n with
    | none =>
      have hn := (mapLookup_eq_none_iff cfg.Hub n).1 hl
      simp [hn]
    | some v =>
      have hn := mem_mapKeys_of_mapLookup cfg.Hub n v hl
      simp [hn]
  · intro htok hclean
    exact httpGet_sendMessageURL (loadConfigFile token path cfg) _ _ htok hclean

/-- Instance of the amended C8: "/HeLp" from the operator 200. -/
theorem help_lists_services_witness :
    processUpdate demoEnv (textUpdate 1 200 "/HeLp") demoState
        = some (demoState, [Effect.httpGet (demoURL "200" "/web /Db /help")]) := by
  have h := help_lists_services demoEnv demoToken (str "/etc/bot.json") demoConfig
    (textUpdate 1 200 "/HeLp") (str "HeLp")
    (by decide) (by decide) (by decide) (by decide) (by decide) (by decide)
  have h1 := h.1
  rw [h.2.2 (by decide) (by decide)] at h1
  exact h1

end MegumiBot
